import Mathlib

/-
Verification of the MS-G3D training/evaluation orchestrator (src/msg3d/main.py):
a shallow embedding of the Processor's control flow (initialization, the
gradient-accumulation training loop, the evaluation/early-stopping state
updates, score fusion, checkpoint/weight persistence) as executable Lean
definitions, with theorems settling the specified properties.
-/

namespace Msg3d

/-- Checkpoint blob, as written by `Processor.save_checkpoint` (main.py:670-678):
a dict with keys `epoch`, `optimizer_states`, `lr_scheduler_states`.  The two
state blobs are opaque to the controller; they are modelled as natural-number
tokens so that "restored verbatim" is expressible as equality of tokens. -/
structure Checkpoint where
  epoch : ℕ
  optimizer_states : ℕ
  lr_scheduler_states : ℕ
deriving DecidableEq, Repr

/-- The configuration fields of `arg` that the control loop reads
(`get_parser`, main.py:38-328).  Field names follow the source. -/
structure Config where
  batch_size : ℕ
  forward_batch_size : ℕ
  start_epoch : ℕ
  num_epoch : ℕ
  save_interval : ℕ
  eval_start : ℕ
  early_stopping : ℕ
  epoch_warn : ℕ
  optimizer : String
  lr_scheduler : String
  checkpoint : Option Checkpoint
deriving DecidableEq, Repr

/-- Parser defaults of the fields above (main.py:38-328): batch-size 32,
forward-batch-size 16, start-epoch 0, num-epoch 80, save-interval 1,
eval-start 1, early-stopping 0, epoch-warn 0, optimizer SGD,
lr-scheduler MultiStepLR, no checkpoint. -/
def cfgBase : Config :=
  { batch_size := 32
    forward_batch_size := 16
    start_epoch := 0
    num_epoch := 80
    save_interval := 1
    eval_start := 1
    early_stopping := 0
    epoch_warn := 0
    optimizer := "SGD"
    lr_scheduler := "MultiStepLR"
    checkpoint := none }

/-- Optimizer handle: the constructed optimizer's name together with its
opaque internal state blob (fresh state is the token 0). -/
structure Optimizer where
  name : String
  state : ℕ
deriving DecidableEq, Repr

/-- The three learning-rate scheduler kinds constructed by
`Processor.load_lr_scheduler` (main.py:515-544). -/
inductive SchedKind where
  | multiStep
  | plateau
  | cosine
deriving DecidableEq, Repr

/-- Scheduler handle: its kind and its opaque internal state blob
(fresh state is the token 0). -/
structure Scheduler where
  kind : SchedKind
  state : ℕ
deriving DecidableEq, Repr

/-- The scheduler kind selected for a scheduler name, if any: the chained
`if` tests of `Processor.load_lr_scheduler` (main.py:520-544).  There is no
else-branch in the source, so an unrecognised name yields `none`
(`self.lr_scheduler` stays `None`). -/
def schedulerOfName (s : String) : Option SchedKind :=
  if s = "MultiStepLR" then some .multiStep
  else if s = "ReduceLROnPlateau" then some .plateau
  else if s = "CosineAnnealingLR" then some .cosine
  else none

/-- `Processor.load_optimizer` (main.py:488-513): construct SGD or Adam, or
raise `ValueError` for any other name; then, if a checkpoint path was
supplied, load the optimizer state dict from the checkpoint verbatim. -/
def load_optimizer (cfg : Config) : Except String Optimizer :=
  if cfg.optimizer = "SGD" ∨ cfg.optimizer = "Adam" then
    let o : Optimizer := { name := cfg.optimizer, state := 0 }
    match cfg.checkpoint with
    | none => .ok o
    | some c => .ok { o with state := c.optimizer_states }
  else
    .error ("Unsupported optimizer: " ++ cfg.optimizer)

/-- `Processor.load_lr_scheduler` (main.py:515-551): build the scheduler for
the configured name (possibly `none`: no else-branch raises); if a checkpoint
was supplied, call `load_state_dict` on `self.lr_scheduler`, which restores
the blob verbatim when a scheduler exists and raises `AttributeError` on
`None`. -/
def load_lr_scheduler (cfg : Config) : Except String (Option Scheduler) :=
  let sch := (schedulerOfName cfg.lr_scheduler).map (fun k => { kind := k, state := 0 : Scheduler })
  match cfg.checkpoint, sch with
  | none, _ => .ok sch
  | some c, some s => .ok (some { s with state := c.lr_scheduler_states })
  | some _, none => .error "AttributeError: NoneType object has no attribute load_state_dict"

/-- The initialization outcome the epoch loop starts from: the constructed
optimizer and scheduler, and the first epoch index of the `start()` loop. -/
structure InitState where
  optimizer : Optimizer
  scheduler : Option Scheduler
  firstEpoch : ℕ
deriving DecidableEq, Repr

/-- `Processor.__init__` followed by the head of `Processor.start`
(main.py:334-398, 908-913): load the optimizer and scheduler (restoring
checkpoint state when a checkpoint path is supplied), then iterate epochs
from `arg.start_epoch` — the loop bound comes from the argument, not from
the checkpoint's stored `epoch` value, which is never read back. -/
def setupProcessor (cfg : Config) : Except String InitState := do
  let opt ← load_optimizer cfg
  let sch ← load_lr_scheduler cfg
  return { optimizer := opt, scheduler := sch, firstEpoch := cfg.start_epoch }

/-- The run statistics mutated by `Processor.eval` and read by the early
stopping check in `Processor.start` (main.py:372-377, 859-870, 918-923). -/
structure EvalState where
  best_acc : ℚ
  best_acc_epoch : ℕ
  best_loss_val : ℚ
  counter_early_stopping : ℕ
deriving DecidableEq, Repr

/-- Field values set in `Processor.__init__` (main.py:374-377):
best accuracy 0, best accuracy epoch 0, best validation loss -1 (sentinel
for unset), early-stopping counter 0. -/
def initialEvalState : EvalState :=
  { best_acc := 0, best_acc_epoch := 0, best_loss_val := -1, counter_early_stopping := 0 }

/-- The metric/early-stop update performed by `Processor.eval` once the fused
score is computed (main.py:859-870): adopt a strictly larger accuracy as best
(recording `epoch + 1`); then, if the validation loss strictly exceeds the
best and the best is not the -1 sentinel, increment the early-stop counter,
else reset the counter to 0 and adopt the loss as best. -/
def evalUpdate (s : EvalState) (epoch : ℕ) (accuracy loss : ℚ) : EvalState :=
  let s1 := if s.best_acc < accuracy then
      { s with best_acc := accuracy, best_acc_epoch := epoch + 1 }
    else s
  if s1.best_loss_val < loss ∧ s1.best_loss_val ≠ -1 then
    { s1 with counter_early_stopping := s1.counter_early_stopping + 1 }
  else
    { s1 with counter_early_stopping := 0, best_loss_val := loss }

/-- `Processor.eval` including its early-return guard (main.py:805-806):
the whole evaluation is skipped when `epoch + 1 < arg.eval_start`. -/
def evalStep (cfg : Config) (s : EvalState) (epoch : ℕ) (accuracy loss : ℚ) : EvalState :=
  if epoch + 1 < cfg.eval_start then s else evalUpdate s epoch accuracy loss

/-- The train-phase epoch loop of `Processor.start` (main.py:913-923),
abstracted over the per-epoch validation accuracy and loss: run the epoch
(train then eval), then break when `early_stopping > 0`, the counter is
positive, and the counter strictly exceeds `early_stopping`.  Returns the
list of executed epoch indices and the final metric state; the second
argument counts the remaining epochs (`num_epoch - start_epoch` at entry). -/
def trainLoop (cfg : Config) (acc loss : ℕ → ℚ) : ℕ → ℕ → EvalState → List ℕ × EvalState
  | _, 0, s => ([], s)
  | epoch, r + 1, s =>
    let s' := evalStep cfg s epoch (acc epoch) (loss epoch)
    if 0 < cfg.early_stopping ∧ 0 < s'.counter_early_stopping ∧
        cfg.early_stopping < s'.counter_early_stopping then
      ([epoch], s')
    else
      let rest := trainLoop cfg acc loss (epoch + 1) r s'
      (epoch :: rest.1, rest.2)

/-- `Processor.start` for the train phase (main.py:908-923): the epoch loop
runs from `start_epoch` for `num_epoch - start_epoch` iterations starting
from the `__init__` metric state. -/
def runTrainPhase (cfg : Config) (acc loss : ℕ → ℚ) : List ℕ × EvalState :=
  trainLoop cfg acc loss cfg.start_epoch (cfg.num_epoch - cfg.start_epoch) initialEvalState

/-- Observable actions of one training epoch, in program order: gradient
zeroing (`optimizer.zero_grad()`, main.py:713), a forward pass (main.py:727),
a backward pass carrying the scaled loss passed to `.backward()`
(main.py:734-740), an optimizer step (main.py:759), a scheduler step
(main.py:787-789), the weight/checkpoint writes (main.py:791-794) and the
evaluation call issued by `start()` (main.py:916). -/
inductive Event where
  | zeroGrad
  | forward
  | backward (scaledLoss : ℚ)
  | optStep
  | schedStep
  | saveWeights (epoch : ℕ)
  | saveCheckpoint (epoch : ℕ)
  | evalPass (epoch : ℕ)
deriving DecidableEq, Repr

/-- The forward/backward events of the gradient-accumulation inner loop
(main.py:721-754): for each `i < splits`, the micro-batch is
`data[i*fbs : (i+1)*fbs]` and the loss sent backward is the model's loss on
that slice divided by `splits`.  The model is abstracted as a function from
a micro-batch to its (unscaled) loss value. -/
def microEvents (model : List ℚ → ℚ) (fbs splits : ℕ) (data : List ℚ) : List Event :=
  ((List.range splits).map (fun i =>
    [Event.forward, Event.backward (model ((data.drop (i * fbs)).take fbs) / (splits : ℚ))])).flatten

/-- Result of one call to `Processor.train`'s batch loop: the emitted events,
the final `global_step`, and the `AssertionError` message if the loop
aborted. -/
structure EpochOut where
  events : List Event
  globalStep : ℚ
  err : Option String
deriving DecidableEq, Repr

/-- The batch loop of `Processor.train` (main.py:704-759).  Per fetched
macro-batch, in source order: `global_step += 1` (main.py:705), gradient
zeroing (main.py:713), then `splits = len(data) // forward_batch_size` and
the assert `len(data) % forward_batch_size == 0` (main.py:717-719) — so a
non-divisible batch aborts after the step-counter increment and the gradient
zeroing but before any forward/backward work; otherwise the micro-batch loop
runs and exactly one optimizer step follows (main.py:759). -/
def trainBatches (cfg : Config) (model : List ℚ → ℚ) (gs : ℚ) : List (List ℚ) → EpochOut
  | [] => { events := [], globalStep := gs, err := none }
  | data :: rest =>
    let gs' := gs + 1
    let splits := data.length / cfg.forward_batch_size
    if data.length % cfg.forward_batch_size ≠ 0 then
      { events := [Event.zeroGrad], globalStep := gs',
        err := some "Real batch size should be a factor of arg.batch_size!" }
    else
      let evs := Event.zeroGrad ::
        (microEvents model cfg.forward_batch_size splits data ++ [Event.optStep])
      let out := trainBatches cfg model gs' rest
      { events := evs ++ out.events, globalStep := out.globalStep, err := out.err }

/-- The scheduler step at the end of `Processor.train` (main.py:787-789):
taken only when a scheduler object exists, its configured name is not
`ReduceLROnPlateau`, and `epoch >= epoch_warn`. -/
def schedulerStepEvents (cfg : Config) (epoch : ℕ) : List Event :=
  match schedulerOfName cfg.lr_scheduler with
  | none => []
  | some _ =>
    if cfg.lr_scheduler = "ReduceLROnPlateau" then []
    else if cfg.epoch_warn ≤ epoch then [Event.schedStep] else []

/-- The condition under which `start()` passes `save_model=True` to `train`
(main.py:914). -/
def saveDue (cfg : Config) (epoch : ℕ) : Prop :=
  (epoch + 1) % cfg.save_interval = 0 ∨ epoch + 1 = cfg.num_epoch

instance (cfg : Config) (epoch : ℕ) : Decidable (saveDue cfg epoch) := by
  unfold saveDue
  infer_instance

/-- The event trace of one iteration of the `start()` epoch loop
(main.py:913-916): `train(epoch, save_model)` — whose tail performs the
scheduler step and then, when saving is due, `save_weights(epoch+1)` and
`save_checkpoint(epoch+1)` (main.py:787-794) — followed by the `eval` call.
If the batch loop aborts, the exception propagates and nothing further
runs. -/
def epochTrace (cfg : Config) (model : List ℚ → ℚ) (batches : List (List ℚ))
    (epoch : ℕ) (gs : ℚ) : List Event :=
  let t := trainBatches cfg model gs batches
  match t.err with
  | some _ => t.events
  | none =>
    t.events ++ schedulerStepEvents cfg epoch ++
      (if saveDue cfg epoch then
        [Event.saveWeights (epoch + 1), Event.saveCheckpoint (epoch + 1)]
      else []) ++
      [Event.evalPass epoch]

/-- True for the persistence events. -/
def isSaveEvent : Event → Bool
  | .saveWeights _ => true
  | .saveCheckpoint _ => true
  | _ => false

/-- True for the evaluation event. -/
def isEvalEvent : Event → Bool
  | .evalPass _ => true
  | _ => false

/-- The ordering asserted by the spec: every persistence event comes strictly
after every evaluation event of the trace. -/
def savesAfterEval (tr : List Event) : Prop :=
  ∀ i < tr.length, ∀ j < tr.length,
    isSaveEvent (tr.getD i Event.optStep) = true →
    isEvalEvent (tr.getD j Event.optStep) = true → j < i

instance (tr : List Event) : Decidable (savesAfterEval tr) := by
  unfold savesAfterEval
  infer_instance

/-- Python's `int()` applied to a float: truncation toward zero. -/
def pyInt (q : ℚ) : ℤ :=
  if 0 ≤ q then Int.floor q else Int.ceil q

/-- The checkpoint filename built by `Processor.save_checkpoint`
(main.py:677): `checkpoint-{epoch}-fwbz{forward_batch_size}-{int(global_step)}.pt`. -/
def checkpoint_name (epoch fwbz : ℕ) (gs : ℚ) : String :=
  "checkpoint-" ++ toString epoch ++ "-fwbz" ++ toString fwbz ++ "-" ++
    toString (pyInt gs) ++ ".pt"

/-- The value assigned to `self.global_step` at the top of the train phase
(main.py:912): `start_epoch * len(data_loader['train']) / batch_size`, with
Python's true (real) division.  `numTrainBatches` is `len(self.data_loader['train'])`,
the number of macro-batches per epoch. -/
def startGlobalStep (cfg : Config) (numTrainBatches : ℕ) : ℚ :=
  (cfg.start_epoch : ℚ) * (numTrainBatches : ℚ) / (cfg.batch_size : ℚ)

/-- `global_step` as the epoch loop begins (main.py:912): the assignment
overwrites whatever value `load_model` parsed from the weights filename
(main.py:427-430), which is therefore passed here only to be discarded. -/
def globalStepAtLoopStart (cfg : Config) (gsParsedFromWeights : ℚ)
    (numTrainBatches : ℕ) : ℚ :=
  startGlobalStep cfg numTrainBatches

/-- A parameter tensor, abstracted to its shape (one dimension suffices to
express shape mismatch) and an opaque content value. -/
structure Tensor where
  shape : ℕ
  val : ℚ
deriving DecidableEq, Repr

/-- A state dict: an ordered association of parameter names to tensors
(keys are assumed already stripped of the `module.` wrapper, as done on both
save and load, main.py:442-443 and 682-685). -/
abbrev StateDict := List (String × Tensor)

/-- Some parameter shared by `model` and `weights` has mismatched shapes. -/
def sizeMismatchB (model weights : StateDict) : Bool :=
  model.any (fun kt =>
    match weights.lookup kt.1 with
    | some w => w.shape ≠ kt.2.shape
    | none => false)

/-- Some parameter of `model` is absent from `weights`. -/
def missingB (model weights : StateDict) : Bool :=
  model.any (fun kt => (weights.lookup kt.1).isNone)

/-- Some entry of `weights` names no parameter of `model`. -/
def unexpectedB (model weights : StateDict) : Bool :=
  weights.any (fun kt => (model.lookup kt.1).isNone)

/-- Torch's `Module.load_state_dict(weights, strict)`: raises on any shape
mismatch between a shared parameter and the supplied tensor regardless of
`strict`; with `strict=True` additionally raises on missing or unexpected
keys; on success each parameter of the module takes the supplied tensor when
one is present and keeps its value otherwise. -/
def load_state_dict (model weights : StateDict) (strict : Bool) : Except String StateDict :=
  if sizeMismatchB model weights then
    .error "size mismatch for some parameters"
  else if strict && (missingB model weights || unexpectedB model weights) then
    .error "missing or unexpected keys in state_dict"
  else
    .ok (model.map (fun kt => (kt.1, (weights.lookup kt.1).getD kt.2)))

/-- Python's `dict.update`: entries of `state` are overwritten by same-named
entries of `weights`; entries of `weights` with new names are appended. -/
def sdUpdate (state weights : StateDict) : StateDict :=
  state.map (fun kt => (kt.1, (weights.lookup kt.1).getD kt.2)) ++
    weights.filter (fun kt => (state.lookup kt.1).isNone)

/-- Result of `Processor.load_model`'s weight-loading block: the final model
state (or the uncaught exception) and the parameter names printed as
`Cannot find these weights:`. -/
structure LoadReport where
  result : Except String StateDict
  missingLogged : List String
deriving Repr

/-- The weight-restore block of `Processor.load_model` (main.py:424-472):
drop the `ignore_weights` entries; try `load_state_dict(weights, strict=False)`;
on an exception, log the model keys absent from the snapshot, overwrite the
full model state with every snapshot entry (`state.update(weights)`), and
re-load that dict with the default `strict=True`. -/
def load_model_weights (model weights : StateDict) (ignore : List String) : LoadReport :=
  let w := weights.filter (fun kt => !(ignore.contains kt.1))
  match load_state_dict model w false with
  | .ok m => { result := .ok m, missingLogged := [] }
  | .error _ =>
    let diff := (model.map Prod.fst).filter (fun k => (w.lookup k).isNone)
    { result := load_state_dict model (sdUpdate model w) true, missingLogged := diff }

/-- A score matrix: a list of per-sample rows of class scores. -/
abbrev SMat := List (List ℚ)

/-- The entry of a score matrix at row `i`, column `j` (0 outside range). -/
def entry (m : SMat) (i j : ℕ) : ℚ := (m.getD i []).getD j 0

/-- `m` is a well-formed `r`-by-`c` score matrix. -/
def Rect (m : SMat) (r c : ℕ) : Prop :=
  m.length = r ∧ ∀ row ∈ m, row.length = c

/-- Elementwise row addition (numpy `+=` on aligned rows). -/
def rowAdd (a b : List ℚ) : List ℚ := a.zipWith (· + ·) b

/-- Elementwise matrix addition (numpy `score += lst_score[i]`, main.py:855). -/
def matAdd (a b : SMat) : SMat := a.zipWith rowAdd b

/-- `np.zeros((r, c))` (main.py:851). -/
def zerosMat (r c : ℕ) : SMat := List.replicate r (List.replicate c 0)

/-- The accumulation loop of `Processor.eval` (main.py:851-855): start from
zeros shaped like the first view and add every per-view score matrix. -/
def sumScores (r c : ℕ) (views : List SMat) : SMat :=
  views.foldl matAdd (zerosMat r c)

/-- The score-fusion step of `Processor.eval` (main.py:851-856): sum the
per-view score matrices elementwise into a zero matrix shaped from the first
view, then divide by the number of views (`iter` counts one per view). -/
def fuse (views : List SMat) : SMat :=
  match views with
  | [] => []
  | v :: _ =>
    (sumScores v.length ((v.getD 0 []).length) views).map
      (fun row => row.map (· / (views.length : ℚ)))

/-- The view-truncation in `main` (main.py:1011-1013): with `use_tta=False`
the tta list is cut to its first element (`arg.tta = [arg.tta[0]]`; for the
always-nonempty parsed list this is `take 1`), so exactly one evaluation
loader is built (one per tta entry, main.py:629-632). -/
def effectiveTta {α : Type} (use_tta : Bool) (tta : List α) : List α :=
  if use_tta then tta else tta.take 1

/-- C1, counterexample: with a checkpoint storing epoch 5 (and blobs 7, 9)
but `start_epoch` left at its default 0, initialization restores the blobs
verbatim yet starts the run at epoch 0, not at the checkpoint's epoch plus
one (6) — the stored epoch is never read back, so the claim that resuming
sets the current epoch from the checkpoint is false. -/
theorem C1_counterexample :
    setupProcessor { cfgBase with checkpoint := some ⟨5, 7, 9⟩ } =
      Except.ok { optimizer := { name := "SGD", state := 7 },
                  scheduler := some { kind := SchedKind.multiStep, state := 9 },
                  firstEpoch := 0 } ∧
    (setupProcessor { cfgBase with checkpoint := some ⟨5, 7, 9⟩ }).toOption.map
        InitState.firstEpoch ≠ some (5 + 1) ∧
    (setupProcessor { cfgBase with checkpoint := some ⟨5, 7, 9⟩ }).toOption.map
        InitState.firstEpoch ≠ some 5 := by
  refine ⟨rfl, ?_, ?_⟩ <;> decide

/-- C1, amended: for every run started with a checkpoint supplied (and a
supported optimizer and scheduler name), initialization restores the
optimizer and scheduler internal state verbatim from the checkpoint blob,
but the run's first epoch is taken from the `start_epoch` argument,
independent of the epoch value stored in the checkpoint; resumed training
continues where the saved run stopped only if the caller passes the matching
`start_epoch`. -/
theorem C1_amended (cfg : Config) (c : Checkpoint) (k : SchedKind)
    (hc : cfg.checkpoint = some c)
    (hopt : cfg.optimizer = "SGD" ∨ cfg.optimizer = "Adam")
    (hsch : schedulerOfName cfg.lr_scheduler = some k) :
    setupProcessor cfg =
      Except.ok { optimizer := { name := cfg.optimizer, state := c.optimizer_states },
                  scheduler := some { kind := k, state := c.lr_scheduler_states },
                  firstEpoch := cfg.start_epoch } := by
  simp only [setupProcessor, load_optimizer, load_lr_scheduler, hc, hsch, if_pos hopt,
    Option.map_some]
  rfl

/-- C1, witness: the amended theorem applied to the default configuration
resuming from checkpoint (5, 7, 9). -/
theorem C1_witness :
    setupProcessor { cfgBase with checkpoint := some ⟨5, 7, 9⟩, start_epoch := 6 } =
      Except.ok { optimizer := { name := "SGD", state := 7 },
                  scheduler := some { kind := SchedKind.multiStep, state := 9 },
                  firstEpoch := 6 } :=
  C1_amended { cfgBase with checkpoint := some ⟨5, 7, 9⟩, start_epoch := 6 }
    ⟨5, 7, 9⟩ SchedKind.multiStep rfl (Or.inl rfl) (by decide)

/-- C9, counterexample: the unsupported scheduler name `StepLR` (with no
checkpoint supplied) does not abort initialization — the scheduler is simply
`None` and setup succeeds, so the claim that an unsupported scheduler name
is a fatal configuration error is false. -/
theorem C9_counterexample :
    schedulerOfName "StepLR" = none ∧
    setupProcessor { cfgBase with lr_scheduler := "StepLR" } =
      Except.ok { optimizer := { name := "SGD", state := 0 },
                  scheduler := none, firstEpoch := 0 } :=
  ⟨rfl, rfl⟩

/-- The checkpoint dict assembled by `Processor.save_checkpoint`
(main.py:670-675): `{'epoch': epoch, 'optimizer_states':
self.optimizer.state_dict(), 'lr_scheduler_states':
self.lr_scheduler.state_dict()}`.  The `state_dict()` call is unguarded, so
when the scheduler is `None` (an unrecognised scheduler name without a
checkpoint restore) it raises `AttributeError`. -/
def save_checkpoint_blob (epoch : ℕ) (opt : Optimizer) (sch : Option Scheduler) :
    Except String Checkpoint :=
  match sch with
  | none => .error "AttributeError: NoneType object has no attribute state_dict"
  | some s =>
    .ok { epoch := epoch, optimizer_states := opt.state, lr_scheduler_states := s.state }

/-- C9, amended: an unsupported optimizer name is fatal during
initialization, before any epoch executes.  An unsupported scheduler name
does not abort initialization — the scheduler is `None` and scheduler steps
are silently skipped — but the run still dies, only later: with a checkpoint
supplied, restoring scheduler state fails at initialization on `None`;
without one, every due checkpoint save (due on every epoch at the default
`save_interval = 1`, and always on the final epoch) calls `state_dict()` on
`None` and crashes — after the first trained epoch, not before any epoch
executes. -/
theorem C9_amended :
    (∀ cfg : Config, cfg.optimizer ≠ "SGD" → cfg.optimizer ≠ "Adam" →
      load_optimizer cfg = Except.error ("Unsupported optimizer: " ++ cfg.optimizer)) ∧
    (∀ cfg : Config, schedulerOfName cfg.lr_scheduler = none → cfg.checkpoint = none →
      load_lr_scheduler cfg = Except.ok none) ∧
    (∀ (cfg : Config) (c : Checkpoint), schedulerOfName cfg.lr_scheduler = none →
      cfg.checkpoint = some c →
      load_lr_scheduler cfg =
        Except.error "AttributeError: NoneType object has no attribute load_state_dict") ∧
    (∀ (cfg : Config) (epoch : ℕ), schedulerOfName cfg.lr_scheduler = none →
      schedulerStepEvents cfg epoch = []) ∧
    (∀ (epoch : ℕ) (opt : Optimizer),
      save_checkpoint_blob epoch opt none =
        Except.error "AttributeError: NoneType object has no attribute state_dict") ∧
    (∀ (cfg : Config) (epoch : ℕ), cfg.save_interval = 1 → saveDue cfg epoch) ∧
    (∀ (cfg : Config) (epoch : ℕ), epoch + 1 = cfg.num_epoch → saveDue cfg epoch) := by
  refine ⟨?_, ?_, ?_, ?_, ?_, ?_, ?_⟩
  · intro cfg h1 h2
    simp [load_optimizer, h1, h2]
  · intro cfg hs hc
    simp [load_lr_scheduler, hs, hc]
  · intro cfg c hs hc
    simp [load_lr_scheduler, hs, hc]
  · intro cfg epoch hs
    simp [schedulerStepEvents, hs]
  · intro epoch opt
    rfl
  · intro cfg epoch h1
    exact Or.inl (by rw [h1]; exact Nat.mod_one (epoch + 1))
  · intro cfg epoch h1
    exact Or.inr h1

/-- C9, witness: the amended theorem applied to the optimizer name
`RMSprop` (fatal at init), to the scheduler name `StepLR` with and without a
checkpoint (fatal at init only with one), the resulting empty
scheduler-step trace, and the `AttributeError` raised by the checkpoint
save due after the first epoch of the default configuration. -/
theorem C9_witness :
    load_optimizer { cfgBase with optimizer := "RMSprop" } =
      Except.error "Unsupported optimizer: RMSprop" ∧
    load_lr_scheduler { cfgBase with lr_scheduler := "StepLR" } = Except.ok none ∧
    load_lr_scheduler { cfgBase with lr_scheduler := "StepLR", checkpoint := some ⟨5, 7, 9⟩ } =
      Except.error "AttributeError: NoneType object has no attribute load_state_dict" ∧
    schedulerStepEvents { cfgBase with lr_scheduler := "StepLR" } 0 = [] ∧
    save_checkpoint_blob 1 { name := "SGD", state := 0 } none =
      Except.error "AttributeError: NoneType object has no attribute state_dict" ∧
    saveDue { cfgBase with lr_scheduler := "StepLR" } 0 ∧
    saveDue { cfgBase with lr_scheduler := "StepLR", num_epoch := 1 } 0 :=
  ⟨C9_amended.1 _ (by decide) (by decide),
   C9_amended.2.1 _ (by decide) rfl,
   C9_amended.2.2.1 _ ⟨5, 7, 9⟩ (by decide) rfl,
   C9_amended.2.2.2.1 _ 0 (by decide),
   C9_amended.2.2.2.2.1 1 { name := "SGD", state := 0 },
   C9_amended.2.2.2.2.2.1 { cfgBase with lr_scheduler := "StepLR" } 0 rfl,
   C9_amended.2.2.2.2.2.2 { cfgBase with lr_scheduler := "StepLR", num_epoch := 1 } 0 rfl⟩

/-- C10, confirmed: at the start of every train-phase run, `start()`
overwrites `global_step` with `start_epoch * numTrainBatches / batch_size`
using real division, discarding any value parsed from the weights filename;
with `start_epoch = 1`, 3 macro-batches per epoch and `batch_size = 2` the
result is the non-integer 3/2, which differs from the 3 macro-batches
actually processed in the prior epoch; and the checkpoint filename embeds
its integer truncation 1. -/
theorem C10_confirmed :
    (∀ (cfg : Config) (g0 g1 : ℚ) (n : ℕ),
      globalStepAtLoopStart cfg g0 n = globalStepAtLoopStart cfg g1 n) ∧
    (∀ (cfg : Config) (g : ℚ) (n : ℕ),
      globalStepAtLoopStart cfg g n = (cfg.start_epoch : ℚ) * (n : ℚ) / (cfg.batch_size : ℚ)) ∧
    startGlobalStep { cfgBase with start_epoch := 1, batch_size := 2 } 3 = 3 / 2 ∧
    (∀ z : ℤ, startGlobalStep { cfgBase with start_epoch := 1, batch_size := 2 } 3 ≠ (z : ℚ)) ∧
    startGlobalStep { cfgBase with start_epoch := 1, batch_size := 2 } 3 ≠ ((1 * 3 : ℕ) : ℚ) ∧
    checkpoint_name 1 16 (startGlobalStep { cfgBase with start_epoch := 1, batch_size := 2 } 3) =
      "checkpoint-1-fwbz16-1.pt" := by
  have h32 : startGlobalStep { cfgBase with start_epoch := 1, batch_size := 2 } 3 = 3 / 2 := by
    norm_num [startGlobalStep]
  have hfloor : pyInt ((3 : ℚ) / 2) = 1 := by
    rw [pyInt, if_pos (by norm_num)]
    norm_num
  refine ⟨fun _ _ _ _ => rfl, fun _ _ _ => rfl, h32, ?_, ?_, ?_⟩
  · intro z hz
    rw [h32] at hz
    field_simp at hz
    have h3 : (3 : ℤ) = z * 2 := by exact_mod_cast hz
    omega
  · rw [h32]
    intro hz
    have h3 : ((3 : ℚ) / 2) * 2 = ((1 * 3 : ℕ) : ℚ) * 2 := by rw [hz]
    norm_num at h3
  · rw [h32, checkpoint_name, hfloor]
    rfl

/-- C10, witness: the confirmed theorem applied concretely — overwriting is
independent of the parsed value at 7 vs 0, and the initial global step 3/2
differs from the integer 2. -/
theorem C10_witness :
    globalStepAtLoopStart cfgBase 7 5 = globalStepAtLoopStart cfgBase 0 5 ∧
    startGlobalStep { cfgBase with start_epoch := 1, batch_size := 2 } 3 ≠ ((2 : ℤ) : ℚ) :=
  ⟨C10_confirmed.1 cfgBase 7 0 5, C10_confirmed.2.2.2.1 2⟩

/-- The configuration of the spec's early-stopping scenario:
`early_stopping = 2` with `n` configured epochs, everything else at its
parser default. -/
def cfgEarly (n : ℕ) : Config := { cfgBase with early_stopping := 2, num_epoch := n }

/-- The spec scenario's per-epoch validation losses: 1.0, 1.2, 1.3, 1.1
(and 0 afterwards). -/
def lossesScenario : ℕ → ℚ := fun n => [(1 : ℚ), 12/10, 13/10, 11/10].getD n 0

/-- C4, counterexample: with `early_stopping = 2`, four configured epochs and
the validation-loss sequence 1.0, 1.2, 1.3, 1.1, the run executes all four
epochs — epoch index 3 (the spec's "epoch 4") runs, because the break
condition `counter > early_stopping` is strict and the counter is only 2
after the epoch producing loss 1.3; so the claim that training terminates
after that epoch and epoch 4 never executes is false. -/
theorem C4_counterexample :
    runTrainPhase (cfgEarly 4) (fun _ => 0) lossesScenario =
      ([0, 1, 2, 3],
       { best_acc := 0, best_acc_epoch := 0, best_loss_val := 1,
         counter_early_stopping := 3 }) ∧
    3 ∈ (runTrainPhase (cfgEarly 4) (fun _ => 0) lossesScenario).1 := by
  have h : runTrainPhase (cfgEarly 4) (fun _ => 0) lossesScenario =
      ([0, 1, 2, 3],
       { best_acc := 0, best_acc_epoch := 0, best_loss_val := 1,
         counter_early_stopping := 3 }) := by
    norm_num [runTrainPhase, trainLoop, evalStep, evalUpdate, cfgEarly, cfgBase,
      initialEvalState, lossesScenario]
  exact ⟨h, by rw [h]; simp⟩

/-- C4, amended: with `early_stopping = 2` and losses 1.0, 1.2, 1.3, 1.1 the
counter reaches 3 only after the fourth epoch, which therefore executes; the
break then fires (with five configured epochs, epoch index 4 never runs).
In general an early break happens only when the threshold is non-zero and
the counter strictly exceeds it — with the threshold at its default 0 the
loop always runs every configured epoch. -/
theorem C4_amended :
    (runTrainPhase (cfgEarly 5) (fun _ => 0) lossesScenario =
      ([0, 1, 2, 3],
       { best_acc := 0, best_acc_epoch := 0, best_loss_val := 1,
         counter_early_stopping := 3 }) ∧
     4 ∉ (runTrainPhase (cfgEarly 5) (fun _ => 0) lossesScenario).1) ∧
    (∀ (cfg : Config) (acc loss : ℕ → ℚ) (e r : ℕ) (s : EvalState),
      cfg.early_stopping = 0 → (trainLoop cfg acc loss e r s).1 = List.range' e r) ∧
    (∀ (cfg : Config) (acc loss : ℕ → ℚ) (e r : ℕ) (s : EvalState),
      (trainLoop cfg acc loss e r s).1.length < r →
      0 < cfg.early_stopping ∧
        cfg.early_stopping < (trainLoop cfg acc loss e r s).2.counter_early_stopping) := by
  refine ⟨?_, ?_, ?_⟩
  · have h : runTrainPhase (cfgEarly 5) (fun _ => 0) lossesScenario =
        ([0, 1, 2, 3],
         { best_acc := 0, best_acc_epoch := 0, best_loss_val := 1,
           counter_early_stopping := 3 }) := by
      norm_num [runTrainPhase, trainLoop, evalStep, evalUpdate, cfgEarly, cfgBase,
        initialEvalState, lossesScenario]
    exact ⟨h, by rw [h]; simp⟩
  · intro cfg acc loss e r s h0
    induction r generalizing e s with
    | zero => simp [trainLoop]
    | succ r ih =>
      rw [trainLoop]
      have hcond : ¬ (0 < cfg.early_stopping ∧
          0 < (evalStep cfg s e (acc e) (loss e)).counter_early_stopping ∧
          cfg.early_stopping <
            (evalStep cfg s e (acc e) (loss e)).counter_early_stopping) := by
        rw [h0]
        simp
      rw [if_neg hcond]
      simp only [List.range'_succ]
      rw [ih]
  · intro cfg acc loss e r s
    induction r generalizing e s with
    | zero =>
      intro h
      exact absurd h (by simp [trainLoop])
    | succ r ih =>
      rw [trainLoop]
      by_cases hcond : 0 < cfg.early_stopping ∧
          0 < (evalStep cfg s e (acc e) (loss e)).counter_early_stopping ∧
          cfg.early_stopping <
            (evalStep cfg s e (acc e) (loss e)).counter_early_stopping
      · rw [if_pos hcond]
        intro _
        exact ⟨hcond.1, hcond.2.2⟩
      · rw [if_neg hcond]
        intro hlen
        simp only [List.length_cons] at hlen
        exact ih (e + 1) (evalStep cfg s e (acc e) (loss e)) (by omega)

/-- C4, witness: the amended theorem's general parts applied concretely —
with the threshold 0 the loop runs all 3 epochs; and in the five-epoch
scenario run, which stops early (4 executed of 5), the threshold is positive
and the final counter 3 strictly exceeds it. -/
theorem C4_witness :
    (trainLoop cfgBase (fun _ => 0) lossesScenario 0 3 initialEvalState).1 =
      List.range' 0 3 ∧
    (0 < (cfgEarly 5).early_stopping ∧
      (cfgEarly 5).early_stopping <
        (trainLoop (cfgEarly 5) (fun _ => 0) lossesScenario 0 5
          initialEvalState).2.counter_early_stopping) :=
  ⟨C4_amended.2.1 cfgBase (fun _ => 0) lossesScenario 0 3 initialEvalState rfl,
   C4_amended.2.2 (cfgEarly 5) (fun _ => 0) lossesScenario 0 5 initialEvalState
     (by norm_num [trainLoop, evalStep, evalUpdate, cfgEarly, cfgBase,
       initialEvalState, lossesScenario])⟩

/-- One evaluation never decreases the best accuracy (main.py:860-862). -/
lemma best_acc_le_evalStep (cfg : Config) (s : EvalState) (e : ℕ) (a l : ℚ) :
    s.best_acc ≤ (evalStep cfg s e a l).best_acc := by
  by_cases hg : e + 1 < cfg.eval_start
  · simp [evalStep, hg]
  · by_cases h1 : s.best_acc < a
    · simp only [evalStep, evalUpdate, hg, if_false, if_pos h1]
      split <;> simp <;> linarith
    · simp only [evalStep, evalUpdate, hg, if_false, if_neg h1]
      split <;> simp

/-- The best accuracy never decreases across the epoch loop. -/
lemma best_acc_le_trainLoop (cfg : Config) (acc loss : ℕ → ℚ) (e r : ℕ) (s : EvalState) :
    s.best_acc ≤ (trainLoop cfg acc loss e r s).2.best_acc := by
  induction r generalizing e s with
  | zero => simp [trainLoop]
  | succ r ih =>
    rw [trainLoop]
    split
    · exact best_acc_le_evalStep cfg s e (acc e) (loss e)
    · exact le_trans (best_acc_le_evalStep cfg s e (acc e) (loss e))
        (ih (e + 1) (evalStep cfg s e (acc e) (loss e)))

/-- C7, confirmed: best accuracy is monotonically non-decreasing, both over
a single evaluation and across the whole epoch loop; when the best
validation loss is unset (the -1 sentinel) the current loss is adopted and
the counter resets to 0; once a best exists, a loss not exceeding the best
resets the counter to 0 and is adopted as the new best, while a loss
strictly exceeding the best increments the counter by exactly 1 and leaves
the best unchanged. -/
theorem C7_confirmed :
    (∀ (cfg : Config) (s : EvalState) (e : ℕ) (a l : ℚ),
      s.best_acc ≤ (evalStep cfg s e a l).best_acc) ∧
    (∀ (cfg : Config) (acc loss : ℕ → ℚ) (e r : ℕ) (s : EvalState),
      s.best_acc ≤ (trainLoop cfg acc loss e r s).2.best_acc) ∧
    (∀ (s : EvalState) (e : ℕ) (a l : ℚ), s.best_loss_val = -1 →
      (evalUpdate s e a l).counter_early_stopping = 0 ∧
        (evalUpdate s e a l).best_loss_val = l) ∧
    (∀ (s : EvalState) (e : ℕ) (a l : ℚ), s.best_loss_val ≠ -1 → l ≤ s.best_loss_val →
      (evalUpdate s e a l).counter_early_stopping = 0 ∧
        (evalUpdate s e a l).best_loss_val = l) ∧
    (∀ (s : EvalState) (e : ℕ) (a l : ℚ), s.best_loss_val ≠ -1 → s.best_loss_val < l →
      (evalUpdate s e a l).counter_early_stopping = s.counter_early_stopping + 1 ∧
        (evalUpdate s e a l).best_loss_val = s.best_loss_val) := by
  refine ⟨best_acc_le_evalStep, best_acc_le_trainLoop, ?_, ?_, ?_⟩
  · intro s e a l hbl
    unfold evalUpdate
    by_cases h1 : s.best_acc < a <;> simp [h1, hbl]
  · intro s e a l hbl hle
    unfold evalUpdate
    by_cases h1 : s.best_acc < a <;> simp [h1, hbl, not_lt_of_ge hle]
  · intro s e a l hbl hlt
    unfold evalUpdate
    by_cases h1 : s.best_acc < a <;> simp [h1, hbl, hlt]

/-- C7, witness: the confirmed theorem applied to concrete states — the
fresh state (sentinel -1) adopting loss 2; a state with best loss 1 seeing
the non-worse loss 1 (reset and adopt) and then the worse loss 2 (increment,
best unchanged); and loop-level monotonicity on the scenario run. -/
theorem C7_witness :
    (evalUpdate initialEvalState 0 0 2).counter_early_stopping = 0 ∧
    (evalUpdate initialEvalState 0 0 2).best_loss_val = 2 ∧
    (evalUpdate ⟨0, 0, 1, 4⟩ 0 0 1).counter_early_stopping = 0 ∧
    (evalUpdate ⟨0, 0, 1, 4⟩ 0 0 1).best_loss_val = 1 ∧
    (evalUpdate ⟨0, 0, 1, 4⟩ 0 0 2).counter_early_stopping = 5 ∧
    (evalUpdate ⟨0, 0, 1, 4⟩ 0 0 2).best_loss_val = 1 ∧
    initialEvalState.best_acc ≤
      (trainLoop (cfgEarly 4) (fun _ => 0) lossesScenario 0 4 initialEvalState).2.best_acc := by
  have h1 := C7_confirmed.2.2.1 initialEvalState 0 0 2 (by norm_num [initialEvalState])
  have h2 := C7_confirmed.2.2.2.1 (⟨0, 0, 1, 4⟩ : EvalState) 0 0 1 (by norm_num) (by norm_num)
  have h3 := C7_confirmed.2.2.2.2 (⟨0, 0, 1, 4⟩ : EvalState) 0 0 2 (by norm_num) (by norm_num)
  exact ⟨h1.1, h1.2, h2.1, h2.2, h3.1, h3.2,
    C7_confirmed.2.1 (cfgEarly 4) (fun _ => 0) lossesScenario 0 4 initialEvalState⟩

/-- Structure of a successful batch loop: when every fetched macro-batch has
the configured `batch_size` and that size is a multiple of
`forward_batch_size`, no assertion fires, the global step advances by one
per macro-batch, and the trace is, per macro-batch: one gradient zeroing,
then `batch_size / forward_batch_size` forward/backward pairs (each backward
loss scaled by the number of splits), then exactly one optimizer step. -/
lemma trainBatches_spec (cfg : Config) (model : List ℚ → ℚ) (gs : ℚ)
    (batches : List (List ℚ))
    (hd : cfg.batch_size % cfg.forward_batch_size = 0)
    (hb : ∀ b ∈ batches, b.length = cfg.batch_size) :
    (trainBatches cfg model gs batches).err = none ∧
    (trainBatches cfg model gs batches).globalStep = gs + batches.length ∧
    (trainBatches cfg model gs batches).events =
      (batches.map (fun data =>
        Event.zeroGrad ::
          (microEvents model cfg.forward_batch_size
            (cfg.batch_size / cfg.forward_batch_size) data ++ [Event.optStep]))).flatten := by
  induction batches generalizing gs with
  | nil => simp [trainBatches]
  | cons b rest ih =>
    have hbl : b.length = cfg.batch_size := hb b (List.mem_cons_self b rest)
    have hrest : ∀ x ∈ rest, x.length = cfg.batch_size :=
      fun x hx => hb x (List.mem_cons_of_mem b hx)
    have ihr := ih (gs + 1) hrest
    rw [trainBatches, if_neg (by rw [hbl]; simpa using hd)]
    refine ⟨ihr.1, ?_, ?_⟩
    · simp only [List.length_cons]
      rw [ihr.2.1]
      push_cast
      ring
    · simp only [List.map_cons, List.flatten_cons]
      rw [ihr.2.2, hbl]

/-- Every event of the micro-batch loop is a forward or a backward. -/
lemma mem_microEvents (model : List ℚ → ℚ) (fbs splits : ℕ) (data : List ℚ) :
    ∀ e ∈ microEvents model fbs splits data,
      e = Event.forward ∨ ∃ q, e = Event.backward q := by
  intro e he
  simp only [microEvents, List.mem_flatten, List.mem_map] at he
  obtain ⟨l, ⟨i, _, rfl⟩, hel⟩ := he
  simp only [List.mem_cons, List.not_mem_nil, or_false] at hel
  rcases hel with rfl | rfl
  · exact Or.inl rfl
  · exact Or.inr ⟨_, rfl⟩

/-- No optimizer step occurs inside the micro-batch loop. -/
lemma microEvents_filter_optStep (model : List ℚ → ℚ) (fbs splits : ℕ) (data : List ℚ) :
    (microEvents model fbs splits data).filter (fun e => e = Event.optStep) = [] := by
  rw [List.filter_eq_nil_iff]
  intro e he
  rcases mem_microEvents model fbs splits data e he with rfl | ⟨q, rfl⟩ <;> simp

/-- No gradient zeroing occurs inside the micro-batch loop. -/
lemma microEvents_filter_zeroGrad (model : List ℚ → ℚ) (fbs splits : ℕ) (data : List ℚ) :
    (microEvents model fbs splits data).filter (fun e => e = Event.zeroGrad) = [] := by
  rw [List.filter_eq_nil_iff]
  intro e he
  rcases mem_microEvents model fbs splits data e he with rfl | ⟨q, rfl⟩ <;> simp

/-- The per-macro-batch trace shape contains exactly one optimizer step per
macro-batch. -/
lemma optStep_count (model : List ℚ → ℚ) (fbs splits : ℕ) (bs : List (List ℚ)) :
    (((bs.map (fun d =>
        Event.zeroGrad :: (microEvents model fbs splits d ++ [Event.optStep]))).flatten.filter
      (fun e => e = Event.optStep)).length) = bs.length := by
  induction bs with
  | nil => simp
  | cons b rest ih =>
    rw [List.map_cons, List.flatten_cons, List.filter_append, List.length_append, ih,
      List.filter_cons, List.filter_append, microEvents_filter_optStep]
    simp [Nat.add_comm]

/-- The per-macro-batch trace shape contains exactly one gradient zeroing
per macro-batch. -/
lemma zeroGrad_count (model : List ℚ → ℚ) (fbs splits : ℕ) (bs : List (List ℚ)) :
    (((bs.map (fun d =>
        Event.zeroGrad :: (microEvents model fbs splits d ++ [Event.optStep]))).flatten.filter
      (fun e => e = Event.zeroGrad)).length) = bs.length := by
  induction bs with
  | nil => simp
  | cons b rest ih =>
    rw [List.map_cons, List.flatten_cons, List.filter_append, List.length_append, ih,
      List.filter_cons, List.filter_append, microEvents_filter_zeroGrad]
    simp [Nat.add_comm]

/-- Only gradient/step events ever appear in the batch loop's trace: no save
and no evaluation happens inside `Processor.train`'s batch loop. -/
lemma trainBatches_events_kinds (cfg : Config) (model : List ℚ → ℚ) (gs : ℚ)
    (batches : List (List ℚ)) :
    ∀ e ∈ (trainBatches cfg model gs batches).events,
      isSaveEvent e = false ∧ isEvalEvent e = false := by
  induction batches generalizing gs with
  | nil => simp [trainBatches]
  | cons b rest ih =>
    rw [trainBatches]
    by_cases hmod : b.length % cfg.forward_batch_size ≠ 0
    · rw [if_pos hmod]
      intro e he
      simp at he
      subst he
      exact ⟨rfl, rfl⟩
    · rw [if_neg hmod]
      intro e he
      simp only [List.cons_append, List.mem_cons, List.mem_append,
        List.not_mem_nil, or_false] at he
      rcases he with rfl | (he | rfl) | he
      · exact ⟨rfl, rfl⟩
      · rcases mem_microEvents _ _ _ _ e he with rfl | ⟨q, rfl⟩
        · exact ⟨rfl, rfl⟩
        · exact ⟨rfl, rfl⟩
      · exact ⟨rfl, rfl⟩
      · exact ih (gs + 1) e he

/-- C2, confirmed: for every training epoch whose fetched macro-batches all
have the configured macro size (guaranteed by `drop_last=True`) with the
macro size divisible by the micro size, each macro-batch contributes exactly
one gradient zeroing, `splits = batch_size / forward_batch_size` contiguous
micro-batches each forwarded and backwarded with loss scaled by `1/splits`,
and exactly one optimizer step after all splits; the global step advances by
exactly one per macro-batch, so after the epoch it equals its prior value
plus the number of macro-batches processed. -/
theorem C2_confirmed (cfg : Config) (model : List ℚ → ℚ) (gs : ℚ)
    (batches : List (List ℚ))
    (hd : cfg.batch_size % cfg.forward_batch_size = 0)
    (hb : ∀ b ∈ batches, b.length = cfg.batch_size) :
    (trainBatches cfg model gs batches).err = none ∧
    (trainBatches cfg model gs batches).globalStep = gs + batches.length ∧
    (trainBatches cfg model gs batches).events =
      (batches.map (fun data =>
        Event.zeroGrad ::
          (microEvents model cfg.forward_batch_size
            (cfg.batch_size / cfg.forward_batch_size) data ++ [Event.optStep]))).flatten ∧
    ((trainBatches cfg model gs batches).events.filter
        (fun e => e = Event.optStep)).length = batches.length ∧
    ((trainBatches cfg model gs batches).events.filter
        (fun e => e = Event.zeroGrad)).length = batches.length := by
  obtain ⟨h1, h2, h3⟩ := trainBatches_spec cfg model gs batches hd hb
  refine ⟨h1, h2, h3, ?_, ?_⟩
  · rw [h3]
    exact optStep_count model cfg.forward_batch_size
      (cfg.batch_size / cfg.forward_batch_size) batches
  · rw [h3]
    exact zeroGrad_count model cfg.forward_batch_size
      (cfg.batch_size / cfg.forward_batch_size) batches

/-- C2, witness: the confirmed theorem applied to macro size 2, micro size 1
and the single macro-batch [1, 2]. -/
theorem C2_witness :
    ({ cfgBase with batch_size := 2, forward_batch_size := 1 } : Config).batch_size %
      ({ cfgBase with batch_size := 2, forward_batch_size := 1 } : Config).forward_batch_size = 0 ∧
    (∀ b ∈ [[(1 : ℚ), 2]], b.length =
      ({ cfgBase with batch_size := 2, forward_batch_size := 1 } : Config).batch_size) ∧
    (trainBatches { cfgBase with batch_size := 2, forward_batch_size := 1 }
      (fun l => l.sum) 0 [[(1 : ℚ), 2]]).err = none ∧
    (trainBatches { cfgBase with batch_size := 2, forward_batch_size := 1 }
      (fun l => l.sum) 0 [[(1 : ℚ), 2]]).globalStep = 0 + ([[(1 : ℚ), 2]].length : ℚ) ∧
    ((trainBatches { cfgBase with batch_size := 2, forward_batch_size := 1 }
      (fun l => l.sum) 0 [[(1 : ℚ), 2]]).events.filter
        (fun e => e = Event.optStep)).length = 1 := by
  have h := C2_confirmed { cfgBase with batch_size := 2, forward_batch_size := 1 }
    (fun l => l.sum) 0 [[(1 : ℚ), 2]] (by decide) (by decide)
  exact ⟨by decide, by decide, h.1, h.2.1, by rw [h.2.2.2.1]; rfl⟩

/-- C3, counterexample: with macro size 3 and micro size 2 (3 % 2 ≠ 0), the
first fetched macro-batch already increments the global step and zeroes the
gradients before the assertion fires — so the claim that the violation
aborts before any epoch executes, with no gradient zeroing and no
global-step advance, is false.  (No forward/backward work happens, which is
the part of the claim that survives.) -/
theorem C3_counterexample :
    trainBatches { cfgBase with batch_size := 3, forward_batch_size := 2 }
        (fun _ => 0) 0 [[(1 : ℚ), 1, 1]] =
      { events := [Event.zeroGrad], globalStep := 1,
        err := some "Real batch size should be a factor of arg.batch_size!" } ∧
    Event.zeroGrad ∈ (trainBatches { cfgBase with batch_size := 3, forward_batch_size := 2 }
        (fun _ => 0) 0 [[(1 : ℚ), 1, 1]]).events ∧
    (trainBatches { cfgBase with batch_size := 3, forward_batch_size := 2 }
        (fun _ => 0) 0 [[(1 : ℚ), 1, 1]]).globalStep ≠ 0 := by
  have h : trainBatches { cfgBase with batch_size := 3, forward_batch_size := 2 }
        (fun _ => 0) 0 [[(1 : ℚ), 1, 1]] =
      { events := [Event.zeroGrad], globalStep := 1,
        err := some "Real batch size should be a factor of arg.batch_size!" } := by
    norm_num [trainBatches]
  refine ⟨h, by rw [h]; simp, by rw [h]; norm_num⟩

/-- C3, amended: a macro-batch whose length is not divisible by the micro
size makes the trainer fail during the first such macro-batch iteration —
after that batch's global-step increment and gradient zeroing but before any
forward pass, backward pass or optimizer step, and without processing any
further batch. -/
theorem C3_amended (cfg : Config) (model : List ℚ → ℚ) (gs : ℚ)
    (b : List ℚ) (rest : List (List ℚ))
    (hmod : b.length % cfg.forward_batch_size ≠ 0) :
    trainBatches cfg model gs (b :: rest) =
      { events := [Event.zeroGrad], globalStep := gs + 1,
        err := some "Real batch size should be a factor of arg.batch_size!" } := by
  rw [trainBatches, if_pos hmod]

/-- C3, witness: the amended theorem applied to a batch of length 3 with
micro size 2. -/
theorem C3_witness :
    ([(1 : ℚ), 1, 1].length %
      ({ cfgBase with batch_size := 3, forward_batch_size := 2 } : Config).forward_batch_size ≠ 0) ∧
    trainBatches { cfgBase with batch_size := 3, forward_batch_size := 2 }
        (fun _ => 1) 5 [[(1 : ℚ), 1, 1]] =
      { events := [Event.zeroGrad], globalStep := 5 + 1,
        err := some "Real batch size should be a factor of arg.batch_size!" } :=
  ⟨by decide,
   C3_amended { cfgBase with batch_size := 3, forward_batch_size := 2 }
     (fun _ => 1) 5 [(1 : ℚ), 1, 1] [] (by decide)⟩

/-- The scheduler-step tail of an epoch contains no save and no evaluation
event. -/
lemma schedulerStepEvents_kinds (cfg : Config) (epoch : ℕ) :
    ∀ e ∈ schedulerStepEvents cfg epoch,
      isSaveEvent e = false ∧ isEvalEvent e = false := by
  intro e he
  unfold schedulerStepEvents at he
  rcases hk : schedulerOfName cfg.lr_scheduler with _ | k <;> rw [hk] at he
  · exact absurd he (List.not_mem_nil e)
  · split_ifs at he
    · exact absurd he (List.not_mem_nil e)
    · simp only [List.mem_singleton] at he
      subst he
      exact ⟨rfl, rfl⟩
    · exact absurd he (List.not_mem_nil e)

/-- A one-epoch configuration with macro and micro size 2, for which
persistence is due every epoch. -/
def cfgSave : Config := { cfgBase with batch_size := 2, forward_batch_size := 2, num_epoch := 1 }

/-- C6, counterexample: in an epoch where persistence is due, the weight and
checkpoint writes appear in the trace after the optimizer step but before
the evaluation call — `eval` runs only after `train` (which saves at its
end) returns — so the claim that the writes happen after the Evaluating
state completes is false. -/
theorem C6_counterexample :
    epochTrace cfgSave
        (fun l => l.sum) [[(1 : ℚ), 1]] 0 0 =
      [Event.zeroGrad, Event.forward, Event.backward 2, Event.optStep, Event.schedStep,
       Event.saveWeights 1, Event.saveCheckpoint 1, Event.evalPass 0] ∧
    ¬ savesAfterEval
      (epochTrace cfgSave
        (fun l => l.sum) [[(1 : ℚ), 1]] 0 0) := by
  have h : epochTrace cfgSave
        (fun l => l.sum) [[(1 : ℚ), 1]] 0 0 =
      [Event.zeroGrad, Event.forward, Event.backward 2, Event.optStep, Event.schedStep,
       Event.saveWeights 1, Event.saveCheckpoint 1, Event.evalPass 0] := by
    norm_num [epochTrace, trainBatches, microEvents, schedulerStepEvents, schedulerOfName,
      saveDue, List.range_succ, cfgSave, cfgBase]
    rw [if_neg (by decide : ¬ ("MultiStepLR" = "ReduceLROnPlateau"))]
    rfl
  refine ⟨h, ?_⟩
  rw [h]
  decide

/-- C6, amended: for every training epoch in which persistence is due (and
whose batches satisfy the divisibility precondition), the weight and
checkpoint writes occur after everything the training phase does — in
particular after every optimizer step and scheduler step of the epoch, so
never concurrently with parameter updates — and before the evaluation call,
not after it: the trace is the training events, then the scheduler tail,
then the two writes, then the evaluation, and no save or evaluation event
occurs anywhere earlier. -/
theorem C6_amended (cfg : Config) (model : List ℚ → ℚ) (batches : List (List ℚ))
    (epoch : ℕ) (gs : ℚ)
    (hd : cfg.batch_size % cfg.forward_batch_size = 0)
    (hb : ∀ b ∈ batches, b.length = cfg.batch_size)
    (hsave : saveDue cfg epoch) :
    epochTrace cfg model batches epoch gs =
      ((trainBatches cfg model gs batches).events ++ schedulerStepEvents cfg epoch) ++
        [Event.saveWeights (epoch + 1), Event.saveCheckpoint (epoch + 1),
         Event.evalPass epoch] ∧
    (∀ e ∈ (trainBatches cfg model gs batches).events ++ schedulerStepEvents cfg epoch,
      isSaveEvent e = false ∧ isEvalEvent e = false) := by
  have herr := (trainBatches_spec cfg model gs batches hd hb).1
  constructor
  · simp only [epochTrace]
    rw [herr, if_pos hsave]
    simp [List.append_assoc]
  · intro e he
    rcases List.mem_append.mp he with he | he
    · exact trainBatches_events_kinds cfg model gs batches e he
    · exact schedulerStepEvents_kinds cfg epoch e he

/-- C6, witness: the amended theorem applied to the concrete epoch of the
counterexample configuration. -/
theorem C6_witness :
    saveDue cfgSave 0 ∧
    epochTrace cfgSave
        (fun l => l.sum) [[(1 : ℚ), 1]] 0 0 =
      ((trainBatches cfgSave
          (fun l => l.sum) 0 [[(1 : ℚ), 1]]).events ++
        schedulerStepEvents cfgSave 0) ++
        [Event.saveWeights 1, Event.saveCheckpoint 1, Event.evalPass 0] :=
  ⟨by decide,
   (C6_amended cfgSave
     (fun l => l.sum) [[(1 : ℚ), 1]] 0 0 (by decide) (by decide) (by decide)).1⟩

/-- `getD` on a replicated list. -/
lemma getD_replicate {α : Type} (n : ℕ) (x : α) (i : ℕ) (d : α) :
    (List.replicate n x).getD i d = if i < n then x else d := by
  induction n generalizing i with
  | zero => simp
  | succ n ih =>
    cases i with
    | zero => simp [List.replicate_succ]
    | succ i => simpa [List.replicate_succ, Nat.succ_lt_succ_iff] using ih i

/-- Every entry of the zero matrix is zero. -/
lemma entry_zeros (r c i j : ℕ) : entry (zerosMat r c) i j = 0 := by
  unfold entry zerosMat
  rw [getD_replicate]
  split
  · rw [getD_replicate]
    split <;> rfl
  · rfl

/-- The zero matrix is well-formed. -/
lemma rect_zeros (r c : ℕ) : Rect (zerosMat r c) r c := by
  constructor
  · simp [zerosMat]
  · intro row hrow
    rw [List.eq_of_mem_replicate hrow]
    simp

/-- A row of an elementwise sum is the `rowAdd` of a row of each summand. -/
lemma mem_matAdd (a b : SMat) (row : List ℚ) (h : row ∈ matAdd a b) :
    ∃ ra ∈ a, ∃ rb ∈ b, row = rowAdd ra rb := by
  induction a generalizing b with
  | nil => simp [matAdd] at h
  | cons x a ih =>
    cases b with
    | nil => simp [matAdd] at h
    | cons y b =>
      rw [matAdd, List.zipWith_cons_cons] at h
      rcases List.mem_cons.mp h with rfl | h
      · exact ⟨x, List.mem_cons_self x a, y, List.mem_cons_self y b, rfl⟩
      · obtain ⟨ra, hra, rb, hrb, rfl⟩ := ih b h
        exact ⟨ra, List.mem_cons_of_mem x hra, rb, List.mem_cons_of_mem y hrb, rfl⟩

/-- Elementwise addition preserves shape. -/
lemma rect_matAdd (a b : SMat) (r c : ℕ) (ha : Rect a r c) (hb : Rect b r c) :
    Rect (matAdd a b) r c := by
  constructor
  · simp [matAdd, List.length_zipWith, ha.1, hb.1]
  · intro row hrow
    obtain ⟨ra, hra, rb, hrb, rfl⟩ := mem_matAdd a b row hrow
    simp [rowAdd, List.length_zipWith, ha.2 ra hra, hb.2 rb hrb]

/-- A `rowAdd` entry is the sum of the entries. -/
lemma getD_rowAdd (ra rb : List ℚ) (j : ℕ) (hlen : ra.length = rb.length)
    (hj : j < ra.length) :
    (rowAdd ra rb).getD j 0 = ra.getD j 0 + rb.getD j 0 := by
  induction ra generalizing rb j with
  | nil => simp at hj
  | cons x ra ih =>
    cases rb with
    | nil => simp at hlen
    | cons y rb =>
      cases j with
      | zero => simp [rowAdd]
      | succ j =>
        simp only [rowAdd, List.zipWith_cons_cons, List.getD_cons_succ]
        exact ih rb j (by simpa using hlen) (by simpa [Nat.succ_lt_succ_iff] using hj)

/-- A `matAdd` entry is the sum of the entries. -/
lemma entry_matAdd (a b : SMat) (r c i j : ℕ) (ha : Rect a r c) (hb : Rect b r c)
    (hi : i < r) (hj : j < c) :
    entry (matAdd a b) i j = entry a i j + entry b i j := by
  induction a generalizing b r i with
  | nil =>
    exact absurd hi (by rw [← ha.1]; simp)
  | cons ra a ih =>
    obtain ⟨hal, har⟩ := ha
    obtain ⟨hbl, hbr⟩ := hb
    cases b with
    | nil => rw [← hal] at hbl; simp at hbl
    | cons rb b =>
      cases i with
      | zero =>
        simp only [entry, matAdd, List.zipWith_cons_cons, List.getD_cons_zero]
        exact getD_rowAdd ra rb j
          (by rw [har ra (List.mem_cons_self ra a), hbr rb (List.mem_cons_self rb b)])
          (by rw [har ra (List.mem_cons_self ra a)]; exact hj)
      | succ i =>
        have h1 : a.length + 1 = r := by simpa using hal
        have h2 : b.length + 1 = r := by simpa using hbl
        have hrec := ih b a.length i
          ⟨rfl, fun row hrow => har row (List.mem_cons_of_mem ra hrow)⟩
          ⟨by omega, fun row hrow => hbr row (List.mem_cons_of_mem rb hrow)⟩
          (by omega)
        simp only [entry, matAdd, List.zipWith_cons_cons, List.getD_cons_succ]
        simpa [entry, matAdd] using hrec

/-- The score accumulation preserves shape. -/
lemma rect_foldl (views : List SMat) (z : SMat) (r c : ℕ) (hz : Rect z r c)
    (hv : ∀ v ∈ views, Rect v r c) : Rect (views.foldl matAdd z) r c := by
  induction views generalizing z with
  | nil => exact hz
  | cons w ws ih =>
    rw [List.foldl_cons]
    exact ih (matAdd z w) (rect_matAdd z w r c hz (hv w (List.mem_cons_self w ws)))
      (fun v hvv => hv v (List.mem_cons_of_mem w hvv))

/-- An entry of the accumulated sum is the entry of the seed plus the sum of
the per-view entries. -/
lemma entry_foldl (views : List SMat) (z : SMat) (r c i j : ℕ) (hz : Rect z r c)
    (hv : ∀ v ∈ views, Rect v r c) (hi : i < r) (hj : j < c) :
    entry (views.foldl matAdd z) i j =
      entry z i j + (views.map (fun v => entry v i j)).sum := by
  induction views generalizing z with
  | nil => simp
  | cons w ws ih =>
    rw [List.foldl_cons, List.map_cons, List.sum_cons]
    rw [ih (matAdd z w) (rect_matAdd z w r c hz (hv w (List.mem_cons_self w ws)))
      (fun v hvv => hv v (List.mem_cons_of_mem w hvv))]
    rw [entry_matAdd z w r c i j hz (hv w (List.mem_cons_self w ws)) hi hj]
    ring

/-- An entry of a row divided elementwise. -/
lemma getD_map_div (row : List ℚ) (q : ℚ) (j : ℕ) :
    (row.map (· / q)).getD j 0 = row.getD j 0 / q := by
  induction row generalizing j with
  | nil => simp
  | cons x row ih =>
    cases j with
    | zero => simp
    | succ j => simpa using ih j

/-- An entry of a matrix divided elementwise. -/
lemma entry_scale (m : SMat) (q : ℚ) (i j : ℕ) :
    entry (m.map (fun row => row.map (· / q))) i j = entry m i j / q := by
  induction m generalizing i with
  | nil => simp [entry, zero_div]
  | cons row m ih =>
    cases i with
    | zero =>
      simp only [List.map_cons, entry, List.getD_cons_zero]
      exact getD_map_div row q j
    | succ i =>
      simp only [List.map_cons, entry, List.getD_cons_succ]
      simpa [entry] using ih i

/-- Elementwise division preserves shape. -/
lemma rect_scale (m : SMat) (q : ℚ) (r c : ℕ) (hm : Rect m r c) :
    Rect (m.map (fun row => row.map (· / q))) r c := by
  constructor
  · simp [hm.1]
  · intro row hrow
    obtain ⟨row0, hrow0, rfl⟩ := List.mem_map.mp hrow
    simp [hm.2 row0 hrow0]

/-- Two rows of the same length with equal entries are equal. -/
lemma row_ext (ra rb : List ℚ) (c : ℕ) (ha : ra.length = c) (hb : rb.length = c)
    (h : ∀ j < c, ra.getD j 0 = rb.getD j 0) : ra = rb := by
  induction ra generalizing rb c with
  | nil =>
    have hrb : rb.length = 0 := by rw [hb, ← ha]; rfl
    exact (List.length_eq_zero.mp hrb).symm
  | cons x ra ih =>
    cases rb with
    | nil =>
      rw [← hb] at ha
      simp at ha
    | cons y rb =>
      have hc1 : ra.length + 1 = c := by simpa using ha
      have hc2 : rb.length + 1 = c := by simpa using hb
      have h0 := h 0 (by omega)
      simp only [List.getD_cons_zero] at h0
      subst h0
      congr 1
      exact ih rb ra.length rfl (by omega)
        (fun j hj => by simpa using h (j + 1) (by omega))

/-- Two matrices of the same shape with equal entries are equal. -/
lemma mat_ext (a b : SMat) (r c : ℕ) (ha : Rect a r c) (hb : Rect b r c)
    (h : ∀ i < r, ∀ j < c, entry a i j = entry b i j) : a = b := by
  induction a generalizing b r with
  | nil =>
    have : b.length = 0 := by rw [hb.1, ← ha.1]; rfl
    exact (List.length_eq_zero.mp this).symm
  | cons ra a ih =>
    cases b with
    | nil => rw [← ha.1] at hb; simp at hb; exact absurd hb.1 (by simp)
    | cons rb b =>
      have hlr : ra.length = c := ha.2 ra (List.mem_cons_self ra a)
      have hlrb : rb.length = c := hb.2 rb (List.mem_cons_self rb b)
      have hhead : ra = rb :=
        row_ext ra rb c hlr hlrb
          (fun j hj => by simpa [entry] using h 0 (by rw [← ha.1]; simp) j hj)
      subst hhead
      congr 1
      exact ih b a.length
        ⟨rfl, fun row hrow => ha.2 row (List.mem_cons_of_mem ra hrow)⟩
        ⟨by have := ha.1; have := hb.1; simp at *; omega,
         fun row hrow => hb.2 row (List.mem_cons_of_mem ra hrow)⟩
        (fun i hi j hj => by simpa [entry] using h (i + 1) (by rw [← ha.1]; simpa) j hj)

/-- Accumulating into an empty seed stays empty. -/
lemma foldl_matAdd_nil (views : List SMat) : views.foldl matAdd [] = [] := by
  induction views with
  | nil => rfl
  | cons w ws ih => simpa [matAdd] using ih

/-- The first row of a nonempty well-formed matrix has the configured column
count. -/
lemma getD_zero_length (A : SMat) (r c : ℕ) (hA : Rect A r c) (hr : 0 < r) :
    (A.getD 0 []).length = c := by
  cases A with
  | nil => rw [← hA.1] at hr; simp at hr
  | cons row A => exact hA.2 row (List.mem_cons_self row A)

/-- An entry of the fused score is the mean of the per-view entries. -/
lemma entry_fuse (v : SMat) (rest : List SMat) (r c i j : ℕ)
    (hv : Rect v r c) (hrest : ∀ w ∈ rest, Rect w r c) (hi : i < r) (hj : j < c) :
    entry (fuse (v :: rest)) i j =
      ((v :: rest).map (fun w => entry w i j)).sum / ((v :: rest).length : ℚ) := by
  have hall : ∀ w ∈ v :: rest, Rect w r c := by
    intro w hw
    rcases List.mem_cons.mp hw with rfl | hw
    · exact hv
    · exact hrest w hw
  have hc0 : (v.getD 0 []).length = c := getD_zero_length v r c hv (by omega)
  rw [fuse, hv.1, hc0, entry_scale]
  rw [sumScores, entry_foldl (v :: rest) (zerosMat r c) r c i j (rect_zeros r c) hall hi hj]
  rw [entry_zeros]
  ring

/-- Fusing `n ≥ 1` identical views yields the view itself. -/
lemma fuse_replicate (n : ℕ) (A : SMat) (r c : ℕ) (hn : 1 ≤ n) (hA : Rect A r c) :
    fuse (List.replicate n A) = A := by
  obtain ⟨m, rfl⟩ : ∃ m, n = m + 1 := ⟨n - 1, by omega⟩
  rw [List.replicate_succ]
  rcases Nat.eq_zero_or_pos r with hr | hr
  · have hAnil : A = [] := by
      subst hr
      exact List.length_eq_zero.mp hA.1
    subst hAnil
    simp only [fuse, sumScores, zerosMat, List.length_nil, List.replicate_zero,
      List.foldl_cons]
    rw [show matAdd ([] : SMat) [] = ([] : SMat) from rfl, foldl_matAdd_nil]
    rfl
  · have hrep : ∀ w ∈ List.replicate m A, Rect w r c := by
      intro w hw
      rw [List.eq_of_mem_replicate hw]
      exact hA
    have hall : ∀ w ∈ A :: List.replicate m A, Rect w r c := by
      intro w hw
      rcases List.mem_cons.mp hw with rfl | hw
      · exact hA
      · exact hrep w hw
    have hc0 : (A.getD 0 []).length = c := getD_zero_length A r c hA hr
    have hrect : Rect (fuse (A :: List.replicate m A)) r c := by
      simp only [fuse]
      rw [hA.1, hc0]
      exact rect_scale _ _ r c (rect_foldl _ _ r c (rect_zeros r c) hall)
    apply mat_ext _ _ r c hrect hA
    intro i hi j hj
    rw [entry_fuse A (List.replicate m A) r c i j hA hrep hi hj]
    rw [show ((A :: List.replicate m A).map (fun w => entry w i j)) =
        List.replicate (m + 1) (entry A i j) from by
      rw [← List.replicate_succ, List.map_replicate]]
    rw [List.sum_replicate, nsmul_eq_mul]
    simp only [List.length_cons, List.length_replicate]
    push_cast
    have hne : ((m : ℚ) + 1) ≠ 0 := by positivity
    rw [mul_div_cancel_left₀ _ hne]

/-- C8, confirmed: the fused score is the elementwise unweighted arithmetic
mean of the per-view score matrices; fusing `n ≥ 1` identical views yields a
matrix identical to the single view's; and with TTA disabled the tta list is
cut to its first entry, so the evaluator builds exactly one view and the
fused score of that single view equals its raw score matrix exactly. -/
theorem C8_confirmed :
    (∀ (v : SMat) (rest : List SMat) (r c i j : ℕ),
      Rect v r c → (∀ w ∈ rest, Rect w r c) → i < r → j < c →
      entry (fuse (v :: rest)) i j =
        ((v :: rest).map (fun w => entry w i j)).sum / ((v :: rest).length : ℚ)) ∧
    (∀ (n : ℕ) (A : SMat) (r c : ℕ), 1 ≤ n → Rect A r c →
      fuse (List.replicate n A) = A) ∧
    (∀ (A : SMat) (r c : ℕ), Rect A r c → fuse [A] = A) ∧
    (∀ (α : Type) (tta : List α), tta ≠ [] → (effectiveTta false tta).length = 1) ∧
    (∀ (α : Type) (t0 : α) (rest : List α), effectiveTta false (t0 :: rest) = [t0]) := by
  refine ⟨entry_fuse, fuse_replicate, ?_, ?_, ?_⟩
  · intro A r c hA
    simpa using fuse_replicate 1 A r c le_rfl hA
  · intro α tta hne
    rw [effectiveTta, if_neg (by simp)]
    rw [List.length_take]
    cases tta with
    | nil => exact absurd rfl hne
    | cons t ts => simp
  · intro α t0 rest
    rw [effectiveTta, if_neg (by simp)]
    rfl

/-- C8, witness: the confirmed theorem applied to two concrete 2-by-2 views
(entry (0,1) of the fusion is the mean (2+6)/2), to two identical copies of
a 1-by-2 view, to a single view, and to a two-entry tta list with TTA
disabled. -/
theorem C8_witness :
    entry (fuse [[[1, 2], [3, 4]], [[5, 6], [7, 8]]]) 0 1 =
      (([[[(1 : ℚ), 2], [3, 4]], [[5, 6], [7, 8]]]).map (fun w => entry w 0 1)).sum / 2 ∧
    fuse (List.replicate 2 [[(1 : ℚ), 2]]) = [[(1 : ℚ), 2]] ∧
    fuse [[[(1 : ℚ), 2]]] = [[(1 : ℚ), 2]] ∧
    (effectiveTta false [0, 1]).length = 1 ∧
    effectiveTta false [0, 1] = [0] := by
  refine ⟨?_, ?_, ?_, ?_, ?_⟩
  · have h := C8_confirmed.1 [[(1 : ℚ), 2], [3, 4]] [[[(5 : ℚ), 6], [7, 8]]] 2 2 0 1
      (by constructor <;> simp) (by intro w hw; simp at hw; subst hw; constructor <;> simp)
      (by omega) (by omega)
    simpa using h
  · exact C8_confirmed.2.1 2 [[(1 : ℚ), 2]] 1 2 (by omega) (by constructor <;> simp)
  · exact C8_confirmed.2.2.1 [[(1 : ℚ), 2]] 1 2 (by constructor <;> simp)
  · exact C8_confirmed.2.2.2.1 ℕ [0, 1] (by simp)
  · exact C8_confirmed.2.2.2.2 ℕ 0 [1]

/-- An empty ignore list filters nothing out of the snapshot. -/
lemma filter_ignore_nil (w : StateDict) :
    w.filter (fun kt => !(([] : List String).contains kt.1)) = w := by
  induction w with
  | nil => rfl
  | cons kt w ih => simp [List.filter, ih]

/-- Looking a key up in the overwritten model state: the model's (first)
tensor for that key, replaced by the snapshot's when one exists. -/
lemma lookup_overwrite (s w : StateDict) (k : String) :
    (s.map (fun kt => (kt.1, (w.lookup kt.1).getD kt.2))).lookup k =
      (s.lookup k).map (fun t => (w.lookup k).getD t) := by
  induction s with
  | nil => rfl
  | cons kt s ih =>
    obtain ⟨k0, t0⟩ := kt
    by_cases h : k == k0
    · have hk : k = k0 := by simpa using h
      subst hk
      simp [List.lookup]
    · simp only [List.map_cons, List.lookup, h]
      exact ih

/-- Lookup distributes over append, preferring the left list. -/
lemma lookup_append (a b : StateDict) (k : String) :
    (a ++ b).lookup k = match a.lookup k with
      | some v => some v
      | none => b.lookup k := by
  induction a with
  | nil => simp [List.lookup]
  | cons kt a ih =>
    obtain ⟨k0, t0⟩ := kt
    by_cases h : k == k0
    · simp [List.lookup, h]
    · simp only [List.cons_append, List.lookup, h]
      exact ih

/-- A member's key is always found by lookup (possibly at an earlier
duplicate). -/
lemma lookup_isSome_of_mem (s : StateDict) (kt : String × Tensor) (h : kt ∈ s) :
    ∃ t, s.lookup kt.1 = some t := by
  induction s with
  | nil => simp at h
  | cons kt0 s ih =>
    obtain ⟨k0, t0⟩ := kt0
    by_cases hk : kt.1 == k0
    · exact ⟨t0, by simp [List.lookup, hk]⟩
    · rcases List.mem_cons.mp h with rfl | h
      · simp at hk
      · obtain ⟨t, ht⟩ := ih h
        exact ⟨t, by simp [List.lookup, hk, ht]⟩

/-- A size mismatch between model and snapshot persists after the model
state is overwritten with the full snapshot (`state.update(weights)`):
the mismatched snapshot tensor is the one found for that key. -/
lemma sizeMismatch_sdUpdate (model w : StateDict)
    (h : sizeMismatchB model w = true) :
    sizeMismatchB model (sdUpdate model w) = true := by
  rw [sizeMismatchB, List.any_eq_true] at h
  obtain ⟨kt, hmem, hpred⟩ := h
  obtain ⟨w', hw', hshape⟩ : ∃ w', w.lookup kt.1 = some w' ∧ (w'.shape ≠ kt.2.shape) := by
    rcases hlk : w.lookup kt.1 with _ | w'
    · rw [hlk] at hpred; simp at hpred
    · rw [hlk] at hpred
      exact ⟨w', rfl, by simpa using hpred⟩
  rw [sizeMismatchB, List.any_eq_true]
  refine ⟨kt, hmem, ?_⟩
  obtain ⟨t0, ht0⟩ := lookup_isSome_of_mem model kt hmem
  have hupd : (sdUpdate model w).lookup kt.1 = some w' := by
    rw [sdUpdate, lookup_append, lookup_overwrite, ht0]
    simp [hw']
  rw [hupd]
  simpa using hshape

/-- C5, counterexample: restoring a snapshot containing a shape-mismatched
classification head (`fc` saved with shape 3, live shape 4) raises: the
non-strict first attempt fails on the size mismatch and the fallback —
which overwrites the state with every snapshot entry and re-loads strictly —
fails on the same mismatch, so the claim that restoreWeights copies only
shape-compatible entries and never raises is false.  (The model-only name
`conv` is logged, as the claim says.) -/
theorem C5_counterexample :
    (load_model_weights [("fc", ⟨4, 0⟩), ("conv", ⟨2, 5⟩)] [("fc", ⟨3, 1⟩)] []).result =
      Except.error "size mismatch for some parameters" ∧
    (load_model_weights [("fc", ⟨4, 0⟩), ("conv", ⟨2, 5⟩)] [("fc", ⟨3, 1⟩)] []).missingLogged =
      ["conv"] :=
  ⟨rfl, rfl⟩

/-- C5, amended: restoreWeights first attempts a non-strict load, which
tolerates missing and unexpected keys but fails on any shape mismatch.  When
every snapshot entry shared with the model is shape-compatible — in
particular for a snapshot whose parameter set is a strict subset of the live
model — the first attempt succeeds with nothing logged: every parameter
named in the snapshot is copied exactly and every other parameter is left
unchanged.  When some shared entry's shape mismatches, the fallback logs
every model parameter name absent from the snapshot, overwrites the state
with all snapshot entries, and re-loads strictly, which raises the same
shape mismatch again: the restore is not shape-tolerant and does raise. -/
theorem C5_amended (model weights : StateDict) :
    (sizeMismatchB model weights = false →
      load_model_weights model weights [] =
        { result := Except.ok (model.map (fun kt => (kt.1, (weights.lookup kt.1).getD kt.2))),
          missingLogged := [] }) ∧
    (sizeMismatchB model weights = true →
      (load_model_weights model weights []).result =
        Except.error "size mismatch for some parameters" ∧
      (load_model_weights model weights []).missingLogged =
        (model.map Prod.fst).filter (fun k => (weights.lookup k).isNone)) := by
  constructor
  · intro h
    rw [load_model_weights, filter_ignore_nil]
    rw [show load_state_dict model weights false =
        Except.ok (model.map (fun kt => (kt.1, (weights.lookup kt.1).getD kt.2))) from by
      rw [load_state_dict, if_neg (by simp [h])]
      simp]
  · intro h
    rw [load_model_weights, filter_ignore_nil]
    rw [show load_state_dict model weights false =
        Except.error "size mismatch for some parameters" from by
      rw [load_state_dict, if_pos (by simp [h])]]
    constructor
    · simp only
      rw [load_state_dict, if_pos (by simp [sizeMismatch_sdUpdate model weights h])]
    · rfl

/-- C5, witness: the amended theorem applied to a strict-subset compatible
snapshot (`fc` copied exactly, `conv` untouched, nothing raised, nothing
logged) and to the shape-mismatched snapshot of the counterexample. -/
theorem C5_witness :
    sizeMismatchB [("fc", ⟨4, 0⟩), ("conv", ⟨2, 5⟩)] [("fc", ⟨4, 1⟩)] = false ∧
    load_model_weights [("fc", ⟨4, 0⟩), ("conv", ⟨2, 5⟩)] [("fc", ⟨4, 1⟩)] [] =
      { result := Except.ok [("fc", ⟨4, 1⟩), ("conv", ⟨2, 5⟩)], missingLogged := [] } ∧
    sizeMismatchB [("fc", ⟨4, 0⟩), ("conv", ⟨2, 5⟩)] [("fc", ⟨3, 1⟩)] = true ∧
    (load_model_weights [("fc", ⟨4, 0⟩), ("conv", ⟨2, 5⟩)] [("fc", ⟨3, 1⟩)] []).result =
      Except.error "size mismatch for some parameters" := by
  have h1 := (C5_amended [("fc", ⟨4, 0⟩), ("conv", ⟨2, 5⟩)] [("fc", ⟨4, 1⟩)]).1 rfl
  have h2 := (C5_amended [("fc", ⟨4, 0⟩), ("conv", ⟨2, 5⟩)] [("fc", ⟨3, 1⟩)]).2 rfl
  exact ⟨rfl, by rw [h1]; rfl, rfl, h2.1⟩

end Msg3d
